import Mathlib

/-!
Verification of the `@hydroperx/inputaction` input-action mapping library.

The development shallowly embeds `src/InputAction.ts` and `src/Input.ts`:
the key-identity translator `navigatorKeyToThis`, the pressed-state pool,
the action map with its built-in defaults, and the two query predicates
`isPressed` / `justPressed`.  Mutable class state is modelled as explicit
state passing over an `InputState` record; DOM event dispatch is modelled
as a list of emitted `InputEvent`s returned alongside the new state;
`Date.now()` timestamps are explicit `Int` parameters (milliseconds);
the `assert` failure in `isPressed`/`justPressed` is modelled by an
`Option Bool` result where `none` is the thrown lookup error.
-/

/-- Embeds the TS type `InputActionKey` from `src/InputAction.ts`: a key
chord.  The optional modifier flags `control? / alt? / shift?` are
embedded as `Bool` with `false` for an absent flag, which is faithful
because the source only ever reads them in boolean positions where
`undefined` behaves as `false`.  Key names are embedded as `String`
(the TS union `InputActionKeyName` is a union of string literals, and
the translator can cast arbitrary strings into it via `as any`). -/
structure InputActionKey where
  key : String
  control : Bool := false
  alt : Bool := false
  shift : Bool := false
deriving DecidableEq

/-- Embeds the TS union `InputActionAtom`, which currently has the single
variant `InputActionKey` (discriminated in the source by
`hasOwnProperty("key")`). -/
inductive InputActionAtom where
  | key (k : InputActionKey)
deriving DecidableEq

/-- Embeds the TS record `PressedState` from `src/Input.ts`. -/
structure PressedState where
  pressed : Bool
  pressedTimestamp : Int
  control : Bool
  shift : Bool
  alt : Bool
deriving DecidableEq

/-- The fixed translation table `mapNavigatorKeyToThis` from
`src/InputAction.ts`. -/
def mapNavigatorKeyToThis : List (String × String) :=
  [("arrowleft", "leftArrow"),
   ("arrowright", "rightArrow"),
   ("arrowup", "upArrow"),
   ("arrowdown", "downArrow"),
   (" ", "spacebar"),
   ("enter", "enter"),
   ("backspace", "backspace"),
   ("subtract", "minus"),
   ("add", "plus"),
   ("tab", "tab")]

/-- Association-list lookup used to embed both the JS `Map.get` and
plain-object property access (`this.mMap[name]`). -/
def alookup {β : Type} : List (String × β) → String → Option β
  | [], _ => none
  | (k, v) :: rest, name => if k = name then some v else alookup rest name

/-- Whether the character list starts with the given pattern list
(helper for the literal-substring part of the regex test). -/
def listStartsWith : List Char → List Char → Bool
  | [], _ => true
  | _ :: _, [] => false
  | p :: ps, c :: cs => p == c && listStartsWith ps cs

/-- Whether the pattern occurs as a contiguous subsequence anywhere in
the character list (JS unanchored regex search for a literal). -/
def listContainsSeq (pat : List Char) : List Char → Bool
  | [] => pat.isEmpty
  | c :: cs => listStartsWith pat (c :: cs) || listContainsSeq pat cs

/-- Whether the character list contains an `f` immediately followed by a
decimal digit: the JS pattern `f\d\d?` matches (unanchored) exactly when
such a pair occurs, the optional second digit being irrelevant for
`RegExp.test`. -/
def hasFDigit : List Char → Bool
  | [] => false
  | [_] => false
  | a :: b :: rest => (a == 'f' && b.isDigit) || hasFDigit (b :: rest)

/-- Embeds `/a-z0-9|f\d\d?/.test(name)` from `src/InputAction.ts` line 60.
The regex has no character class and no anchors, so the left alternative
is the six-character literal `a-z0-9` searched anywhere in the string,
and the right alternative is an `f` followed by one or two digits
anywhere in the string. -/
def letterDigitRegexTest (name : String) : Bool :=
  listContainsSeq "a-z0-9".toList name.toList || hasFDigit name.toList

/-- Embeds the JS `String.prototype.toLowerCase` call on a raw key name,
character by character (all raw key names involved are ASCII). -/
def jsToLowerCase (s : String) : String :=
  ⟨s.data.map Char.toLower⟩

/-- Embeds `navigatorKeyToThis` from `src/InputAction.ts`: lower-case the
raw name, return it directly when the regex test succeeds, otherwise
consult the fixed table. -/
def navigatorKeyToThis (name : String) : Option String :=
  let name := jsToLowerCase name
  if letterDigitRegexTest name then some name
  else alookup mapNavigatorKeyToThis name

/-- An action map, embedding the TS `Record<string, InputActionAtom[]>`
as an association list (JS plain objects have no duplicate keys). -/
abbrev ActionMap := List (String × List InputActionAtom)

/-- The pressed-state pool, embedding the TS
`Map<InputActionKeyName, PressedState>`. -/
abbrev Pool := List (String × PressedState)

/-- Events dispatched on the `Input` event target. -/
inductive InputEvent where
  | inputPressed
  | inputReleased
  | actionsUpdated
deriving DecidableEq

/-- Embeds `Input.builtin()` from `src/Input.ts`: the fresh five-entry
default action map. -/
def builtin : ActionMap :=
  [("escape", [InputActionAtom.key { key := "escape" }]),
   ("navigateLeft", [InputActionAtom.key { key := "leftArrow" }]),
   ("navigateRight", [InputActionAtom.key { key := "rightArrow" }]),
   ("navigateUp", [InputActionAtom.key { key := "upArrow" }]),
   ("navigateDown", [InputActionAtom.key { key := "downArrow" }])]

/-- Embeds the JS object-spread `{...base, ...m}` on association lists
without duplicate keys: keys of `base` keep their position but take the
value from `m` when `m` also has the key, and keys only in `m` are
appended in order. -/
def spreadMerge (base m : ActionMap) : ActionMap :=
  base.map (fun e => match alookup m e.1 with
    | some v => (e.1, v)
    | none => e)
  ++ m.filter (fun e => (alookup base e.1).isNone)

/-- The mutable state of the `Input` class: the instance action map
`mMap` and the static pressed-state pool `mPressedStatePoolKeys`. -/
structure InputState where
  mMap : ActionMap
  pool : Pool
deriving DecidableEq

/-- The construction-time state of `Input`: `mMap = {...Input.builtin()}`
and an empty pool. -/
def initState : InputState :=
  { mMap := builtin, pool := [] }

/-- Embeds `Input.setActions` from `src/Input.ts`: the internal map
becomes `{...Input.builtin(), ...structuredClone(map)}` and an
`actionsUpdated` event is dispatched.  `structuredClone` is the identity
in this value-semantics embedding. -/
def setActions (s : InputState) (m : ActionMap) : InputState × List InputEvent :=
  ({ s with mMap := spreadMerge builtin m }, [InputEvent.actionsUpdated])

/-- Embeds `Input.getActions` from `src/Input.ts` (the `structuredClone`
deep copy is the identity in this value-semantics embedding). -/
def getActions (s : InputState) : ActionMap :=
  s.mMap

/-- Embeds JS `Map.set` on the pool: update the entry in place when the
key is present, append it otherwise. -/
def poolInsert : Pool → String → PressedState → Pool
  | [], k, v => [(k, v)]
  | (k', v') :: rest, k, v =>
      if k' = k then (k, v) :: rest else (k', v') :: poolInsert rest k v

/-- Embeds the `keydown` listener from the static initializer of
`src/Input.ts`: if the raw key name translates, the pool entry for the
canonical key (created lazily when absent, then fully overwritten) gets
`pressed = true`, `pressedTimestamp = Date.now()` and the event's three
modifier flags, and an `inputPressed` event is dispatched; otherwise
nothing happens. -/
def handleKeyDown (s : InputState) (raw : String)
    (ctrl shiftHeld altHeld : Bool) (now : Int) : InputState × List InputEvent :=
  match navigatorKeyToThis raw with
  | none => (s, [])
  | some k =>
      let st : PressedState :=
        { pressed := true, pressedTimestamp := now,
          control := ctrl, shift := shiftHeld, alt := altHeld }
      ({ s with pool := poolInsert s.pool k st }, [InputEvent.inputPressed])

/-- Embeds the `keyup` listener from the static initializer of
`src/Input.ts`: if the raw key name translates, the pool entry for the
canonical key (created lazily with a zero timestamp when absent) gets
`pressed = false` and all three modifier flags cleared, the timestamp
being left untouched, and an `inputReleased` event is dispatched;
otherwise nothing happens.  The listener never reads the event's
modifier flags. -/
def handleKeyUp (s : InputState) (raw : String) : InputState × List InputEvent :=
  match navigatorKeyToThis raw with
  | none => (s, [])
  | some k =>
      let old := match alookup s.pool k with
        | some st => st
        | none =>
            { pressed := false, pressedTimestamp := 0,
              control := false, shift := false, alt := false }
      let st : PressedState :=
        { old with pressed := false, control := false,
                   shift := false, alt := false }
      ({ s with pool := poolInsert s.pool k st }, [InputEvent.inputReleased])

/-- Embeds the per-chord `pressed` formula of `Input.isPressed` /
`Input.justPressed`: the looked-up pressed state must exist and be
pressed, and each of the three modifier flags must equal the chord's
flag exactly (`chord.control ? state.control : !state.control`, and
likewise for shift and alt). -/
def keyMatches (k : InputActionKey) : Option PressedState → Bool
  | none => false
  | some st =>
      st.pressed &&
      (if k.control then st.control else !st.control) &&
      (if k.shift then st.shift else !st.shift) &&
      (if k.alt then st.alt else !st.alt)

/-- Embeds the `for`-loop of `Input.isPressed` with its early `return
true`: scan the atoms in order, returning true at the first key chord
whose formula holds, false when the list is exhausted. -/
def anyKeyAtomMatches (pool : Pool) : List InputActionAtom → Bool
  | [] => false
  | InputActionAtom.key k :: rest =>
      if keyMatches k (alookup pool k.key) then true
      else anyKeyAtomMatches pool rest

/-- Embeds `Input.isPressed` from `src/Input.ts`.  The `assert` that the
action exists is modelled by the `none` result (a thrown lookup error). -/
def isPressed (s : InputState) (name : String) : Option Bool :=
  match alookup s.mMap name with
  | none => none
  | some action => some (anyKeyAtomMatches s.pool action)

/-- The recency conjunct of `Input.justPressed`:
`pressedState.pressedTimestamp > Date.now() - 15`.  In the source it is
only evaluated when the chord formula already holds, so the state is
known to exist there; the `none` case is unreachable in that position. -/
def recentTs (now : Int) : Option PressedState → Bool
  | none => false
  | some st => decide (st.pressedTimestamp > now - 15)

/-- Embeds the `for`-loop of `Input.justPressed`: like the `isPressed`
loop but the early `return true` additionally requires the recency
conjunct. -/
def anyKeyAtomJustMatches (pool : Pool) (now : Int) : List InputActionAtom → Bool
  | [] => false
  | InputActionAtom.key k :: rest =>
      if keyMatches k (alookup pool k.key) && recentTs now (alookup pool k.key) then true
      else anyKeyAtomJustMatches pool now rest

/-- Embeds `Input.justPressed` from `src/Input.ts`, with `Date.now()`
passed explicitly as `now`. -/
def justPressed (s : InputState) (name : String) (now : Int) : Option Bool :=
  match alookup s.mMap name with
  | none => none
  | some action => some (anyKeyAtomJustMatches s.pool now action)

/-- States reachable from the construction-time state by any sequence of
the public operations.  `getActions`, `isPressed` and `justPressed` are
pure reads (plain functions of the state in this embedding), so only
`setActions` and the two raw key handlers appear as transitions. -/
inductive Reachable : InputState → Prop where
  | init : Reachable initState
  | set {s : InputState} (m : ActionMap) :
      Reachable s → Reachable (setActions s m).1
  | keyDown {s : InputState} (raw : String) (ctrl shiftHeld altHeld : Bool) (now : Int) :
      Reachable s → Reachable (handleKeyDown s raw ctrl shiftHeld altHeld now).1
  | keyUp {s : InputState} (raw : String) :
      Reachable s → Reachable (handleKeyUp s raw).1

theorem alookup_append {β : Type} (l1 l2 : List (String × β)) (name : String) :
    alookup (l1 ++ l2) name =
      match alookup l1 name with
      | some v => some v
      | none => alookup l2 name := by
  induction l1 with
  | nil => simp [alookup]
  | cons e rest ih =>
      obtain ⟨k, v⟩ := e
      by_cases h : k = name
      · simp [alookup, h]
      · simp [alookup, h, ih]

theorem alookup_map_spread (base m : ActionMap) (name : String) :
    alookup (base.map (fun e => match alookup m e.1 with
      | some v => (e.1, v)
      | none => e)) name =
      match alookup base name with
      | none => none
      | some v =>
          match alookup m name with
          | some w => some w
          | none => some v := by
  induction base with
  | nil => simp [alookup]
  | cons e rest ih =>
      obtain ⟨k, v⟩ := e
      by_cases h : k = name
      · subst h
        cases hm : alookup m k <;> simp [alookup, hm]
      · cases hm : alookup m k <;> simp [alookup, hm, h, ih]

theorem alookup_filter_spread (base m : ActionMap) (name : String) :
    alookup (m.filter (fun e => (alookup base e.1).isNone)) name =
      match alookup base name with
      | none => alookup m name
      | some _ => none := by
  induction m with
  | nil => cases hb : alookup base name <;> simp [alookup]
  | cons e rest ih =>
      obtain ⟨k, v⟩ := e
      by_cases h : k = name
      · subst h
        cases hb : alookup base k <;>
          simp [List.filter, alookup, hb, ih]
      · cases hb : alookup base k <;>
          cases hbn : alookup base name <;>
            simp [List.filter, alookup, hb, hbn, h, ih]

theorem spreadMerge_alookup (base m : ActionMap) (name : String) :
    alookup (spreadMerge base m) name =
      match alookup m name with
      | some v => some v
      | none => alookup base name := by
  unfold spreadMerge
  rw [alookup_append, alookup_map_spread, alookup_filter_spread]
  cases hb : alookup base name <;> cases hm : alookup m name <;> simp

theorem spreadMerge_isSome (base m : ActionMap) (name : String)
    (h : (alookup base name).isSome) :
    (alookup (spreadMerge base m) name).isSome := by
  rw [spreadMerge_alookup]
  cases hm : alookup m name <;> simp_all

theorem alookup_poolInsert_self (p : Pool) (k : String) (v : PressedState) :
    alookup (poolInsert p k v) k = some v := by
  induction p with
  | nil => simp [poolInsert, alookup]
  | cons e rest ih =>
      obtain ⟨k', v'⟩ := e
      by_cases h : k' = k
      · simp [poolInsert, h, alookup]
      · simp [poolInsert, h, alookup, ih]

theorem anyKeyAtomMatches_eq_true_iff (pool : Pool) (l : List InputActionAtom) :
    anyKeyAtomMatches pool l = true ↔
      ∃ k, InputActionAtom.key k ∈ l ∧ keyMatches k (alookup pool k.key) = true := by
  induction l with
  | nil => simp [anyKeyAtomMatches]
  | cons a rest ih =>
      cases a with
      | key k =>
          by_cases h : keyMatches k (alookup pool k.key) = true
          · simp only [anyKeyAtomMatches, h, if_true, true_iff]
            exact ⟨k, List.mem_cons_self _ _, h⟩
          · simp only [anyKeyAtomMatches, h, if_false, ih, Bool.false_eq_true]
            constructor
            · rintro ⟨k', hk', hm⟩
              exact ⟨k', List.mem_cons_of_mem _ hk', hm⟩
            · rintro ⟨k', hk', hm⟩
              rcases List.mem_cons.mp hk' with heq | hmem
              · cases heq
                exact absurd hm h
              · exact ⟨k', hmem, hm⟩

theorem anyKeyAtomJustMatches_imp (pool : Pool) (now : Int) (l : List InputActionAtom) :
    anyKeyAtomJustMatches pool now l = true → anyKeyAtomMatches pool l = true := by
  induction l with
  | nil => simp [anyKeyAtomJustMatches, anyKeyAtomMatches]
  | cons a rest ih =>
      cases a with
      | key k =>
          by_cases h : keyMatches k (alookup pool k.key) = true
          · intro _
            simp [anyKeyAtomMatches, h]
          · intro hj
            simp only [anyKeyAtomJustMatches, h] at hj
            simp only [anyKeyAtomMatches, h, if_false]
            simp only [Bool.false_and, if_false] at hj
            · exact ih hj

theorem handleKeyDown_fst_mMap (s : InputState) (raw : String)
    (ctrl shiftHeld altHeld : Bool) (now : Int) :
    (handleKeyDown s raw ctrl shiftHeld altHeld now).1.mMap = s.mMap := by
  cases h : navigatorKeyToThis raw <;> simp [handleKeyDown, h]

theorem handleKeyUp_fst_mMap (s : InputState) (raw : String) :
    (handleKeyUp s raw).1.mMap = s.mMap := by
  cases h : navigatorKeyToThis raw <;> simp [handleKeyUp, h]

/-- A sample state used to instantiate general theorems on concrete
inputs: one action `x` bound to the bare chord `a`, and the key `a`
pressed without modifiers at time 100. -/
def sampleState : InputState :=
  { mMap := [("x", [InputActionAtom.key { key := "a" }])],
    pool := [("a", { pressed := true, pressedTimestamp := 100,
                     control := false, shift := false, alt := false })] }

/-- Claim C1: the spec says the translator lower-cases the raw name and
returns it directly when it is a single lowercase letter, a single
digit, or `f` followed by one or two digits, with
`translate("a") = "a"` among the required examples.  The code's regex
`/a-z0-9|f\d\d?/` lacks a character class and anchors, so the single
letter `"a"` fails the test, falls through to the fixed table, and the
translator returns `none`.  The other three spec examples do hold.
This theorem evaluates the code at the failing input and at the three
passing ones. -/
theorem navigatorKeyToThis_letter_key_bug :
    navigatorKeyToThis "a" = none ∧
    navigatorKeyToThis "ArrowLeft" = some "leftArrow" ∧
    navigatorKeyToThis "F3" = some "f3" ∧
    navigatorKeyToThis "unknownkey" = none := by decide

/-- Claim C3: chord modifier flags have exact-match semantics: for every
chord and existing pressed state, the per-chord formula equals
`pressed` conjoined with exact equality of each of the three modifier
flags; in particular a bare `a` chord does not match while Control is
held, and an `a`+Control chord does not match while Control is not
held. -/
theorem keyMatches_exact_modifier_semantics :
    (∀ (k : InputActionKey) (st : PressedState),
      keyMatches k (some st) =
        (st.pressed && (k.control == st.control) &&
         (k.shift == st.shift) && (k.alt == st.alt))) ∧
    keyMatches { key := "a" }
      (some { pressed := true, pressedTimestamp := 0,
              control := true, shift := false, alt := false }) = false ∧
    keyMatches { key := "a", control := true }
      (some { pressed := true, pressedTimestamp := 0,
              control := false, shift := false, alt := false }) = false := by
  refine ⟨?_, by decide, by decide⟩
  intro k st
  obtain ⟨key, c, a, sh⟩ := k
  obtain ⟨p, ts, c', s', a'⟩ := st
  cases c <;> cases a <;> cases sh <;> cases p <;> cases c' <;> cases s' <;> cases a' <;> rfl

/-- Claim C8: `isPressed` and `justPressed` fail with the lookup error
(modelled as `none`) exactly when the action name is absent from the
current action map; when the name is present they return a boolean.
Both queries are plain functions of the state in this embedding, so
the state is unchanged by a failing call. -/
theorem query_lookup_error_iff_absent (s : InputState) (name : String) (now : Int) :
    (isPressed s name = none ↔ alookup s.mMap name = none) ∧
    (justPressed s name now = none ↔ alookup s.mMap name = none) := by
  cases h : alookup s.mMap name <;> simp [isPressed, justPressed, h]

/-- Claim C9: a raw key event whose name the translator does not
recognize leaves the state (in particular the pressed-state pool)
unchanged and dispatches no event. -/
theorem unrecognized_key_is_noop (s : InputState) (raw : String)
    (ctrl shiftHeld altHeld : Bool) (now : Int)
    (h : navigatorKeyToThis raw = none) :
    handleKeyDown s raw ctrl shiftHeld altHeld now = (s, []) ∧
    handleKeyUp s raw = (s, []) := by
  simp [handleKeyDown, handleKeyUp, h]

theorem unrecognized_key_is_noop_witness :
    handleKeyDown initState "unknownkey" false false false 100 = (initState, []) ∧
    handleKeyUp initState "unknownkey" = (initState, []) :=
  unrecognized_key_is_noop initState "unknownkey" false false false 100 (by decide)

/-- Claim C10: whenever `justPressed` returns `some true` on a state at
some instant, `isPressed` returns `some true` on the same state: the
just-pressed loop only adds the timestamp-recency conjunct to the
per-chord matching of `isPressed`. -/
theorem justPressed_implies_isPressed (s : InputState) (name : String) (now : Int)
    (h : justPressed s name now = some true) :
    isPressed s name = some true := by
  cases hl : alookup s.mMap name with
  | none => simp [justPressed, hl] at h
  | some action =>
      simp only [justPressed, hl, Option.some.injEq] at h
      simp only [isPressed, hl, Option.some.injEq]
      exact anyKeyAtomJustMatches_imp s.pool now action h

theorem justPressed_implies_isPressed_witness :
    isPressed sampleState "x" = some true :=
  justPressed_implies_isPressed sampleState "x" 100 (by decide)

/-- Claim C2: with action `x` defined as the bare chord `a` and the pool
holding `a` pressed without modifiers at timestamp `T`, `justPressed`
returns true when evaluated at `T + 5` and false when evaluated at
`T + 20`, for every `T`: the recency window is the fixed 15
milliseconds of `pressedState.pressedTimestamp > Date.now() - 15`. -/
theorem justPressed_fifteen_ms_window (T : Int) :
    justPressed
      { mMap := [("x", [InputActionAtom.key { key := "a" }])],
        pool := [("a", { pressed := true, pressedTimestamp := T,
                         control := false, shift := false, alt := false })] }
      "x" (T + 5) = some true ∧
    justPressed
      { mMap := [("x", [InputActionAtom.key { key := "a" }])],
        pool := [("a", { pressed := true, pressedTimestamp := T,
                         control := false, shift := false, alt := false })] }
      "x" (T + 20) = some false := by
  refine ⟨?_, ?_⟩
  · have hcond : T > T + 5 - 15 := by omega
    simp [justPressed, alookup, anyKeyAtomJustMatches, keyMatches, recentTs, hcond]
  · have hcond : ¬(T > T + 20 - 15) := by omega
    simp [justPressed, alookup, anyKeyAtomJustMatches, keyMatches, recentTs, hcond]

/-- Claim C4: for a registered action, `isPressed` returns true exactly
when some key chord of its definition matches the pool (logical OR over
the sequence), false exactly when no chord matches, a missing pool
entry counts as all-false (`keyMatches` of `none` is false), and an
empty definition yields false. -/
theorem isPressed_disjunction (s : InputState) (name : String)
    (action : List InputActionAtom) (h : alookup s.mMap name = some action) :
    (isPressed s name = some true ↔
      ∃ k, InputActionAtom.key k ∈ action ∧ keyMatches k (alookup s.pool k.key) = true) ∧
    (isPressed s name = some false ↔
      ∀ k, InputActionAtom.key k ∈ action → keyMatches k (alookup s.pool k.key) = false) ∧
    (∀ k : InputActionKey, keyMatches k none = false) ∧
    (action = [] → isPressed s name = some false) := by
  have hp : isPressed s name = some (anyKeyAtomMatches s.pool action) := by
    simp [isPressed, h]
  refine ⟨?_, ?_, fun k => rfl, ?_⟩
  · rw [hp]
    simp only [Option.some.injEq]
    exact anyKeyAtomMatches_eq_true_iff s.pool action
  · rw [hp]
    simp only [Option.some.injEq]
    constructor
    · intro hfalse k hk
      by_contra hne
      have hm : keyMatches k (alookup s.pool k.key) = true := by
        cases hb : keyMatches k (alookup s.pool k.key)
        · exact absurd hb hne
        · rfl
      have := (anyKeyAtomMatches_eq_true_iff s.pool action).mpr ⟨k, hk, hm⟩
      rw [hfalse] at this
      exact Bool.false_ne_true this
    · intro hall
      cases hb : anyKeyAtomMatches s.pool action
      · rfl
      · obtain ⟨k, hk, hm⟩ := (anyKeyAtomMatches_eq_true_iff s.pool action).mp hb
        rw [hall k hk] at hm
        exact absurd hm (by simp)
  · intro he
    subst he
    rw [hp]
    rfl

theorem isPressed_disjunction_witness :
    (isPressed sampleState "x" = some true ↔
      ∃ k, InputActionAtom.key k ∈ [InputActionAtom.key { key := "a" }] ∧
        keyMatches k (alookup sampleState.pool k.key) = true) ∧
    (isPressed sampleState "x" = some false ↔
      ∀ k, InputActionAtom.key k ∈ [InputActionAtom.key { key := "a" }] →
        keyMatches k (alookup sampleState.pool k.key) = false) ∧
    (∀ k : InputActionKey, keyMatches k none = false) ∧
    ([InputActionAtom.key { key := "a" }] = ([] : List InputActionAtom) →
      isPressed sampleState "x" = some false) :=
  isPressed_disjunction sampleState "x" [InputActionAtom.key { key := "a" }] (by decide)

/-- Claim C5: `setActions` makes the internal map the per-name overlay
of the candidate over fresh built-in defaults (candidate entries win on
name collision, other candidate entries are appended) and emits exactly
one `actionsUpdated` event; `setActions` with the empty map yields
exactly the five built-in defaults, and overriding `escape` with
`[{key:"enter"}]` replaces only that entry, leaving the other four
built-ins intact. -/
theorem setActions_overlay_builtin :
    (∀ (s : InputState) (c : ActionMap) (name : String),
      alookup ((setActions s c).1.mMap) name =
        match alookup c name with
        | some v => some v
        | none => alookup builtin name) ∧
    (∀ (s : InputState) (c : ActionMap), (setActions s c).2 = [InputEvent.actionsUpdated]) ∧
    (∀ s : InputState, (setActions s []).1.mMap = builtin) ∧
    (∀ s : InputState,
      (setActions s [("escape", [InputActionAtom.key { key := "enter" }])]).1.mMap =
        [("escape", [InputActionAtom.key { key := "enter" }]),
         ("navigateLeft", [InputActionAtom.key { key := "leftArrow" }]),
         ("navigateRight", [InputActionAtom.key { key := "rightArrow" }]),
         ("navigateUp", [InputActionAtom.key { key := "upArrow" }]),
         ("navigateDown", [InputActionAtom.key { key := "downArrow" }])]) := by
  refine ⟨fun s c name => ?_, fun s c => rfl, fun s => rfl, fun s => rfl⟩
  exact spreadMerge_alookup builtin c name

/-- Claim C6: every state reachable from construction by any sequence of
the public operations (the queries being pure reads) has an action map
containing the five built-in action names: a replacement can override a
built-in's definition but never removes its name. -/
theorem reachable_contains_builtin_actions (s : InputState) (h : Reachable s) :
    (alookup s.mMap "escape").isSome ∧
    (alookup s.mMap "navigateLeft").isSome ∧
    (alookup s.mMap "navigateRight").isSome ∧
    (alookup s.mMap "navigateUp").isSome ∧
    (alookup s.mMap "navigateDown").isSome := by
  induction h with
  | init => decide
  | set m hr ih =>
      refine ⟨?_, ?_, ?_, ?_, ?_⟩ <;>
        exact spreadMerge_isSome builtin m _ (by decide)
  | keyDown raw ctrl shiftHeld altHeld now hr ih =>
      rw [handleKeyDown_fst_mMap]
      exact ih
  | keyUp raw hr ih =>
      rw [handleKeyUp_fst_mMap]
      exact ih

theorem reachable_contains_builtin_actions_witness :
    (alookup initState.mMap "escape").isSome ∧
    (alookup initState.mMap "navigateLeft").isSome ∧
    (alookup initState.mMap "navigateRight").isSome ∧
    (alookup initState.mMap "navigateUp").isSome ∧
    (alookup initState.mMap "navigateDown").isSome :=
  reachable_contains_builtin_actions initState Reachable.init

/-- Claim C7: after a key-down whose raw name translates to canonical
key `k` with modifiers `m`, the pool entry for `k` has `pressed = true`,
the event timestamp, and modifier flags equal to `m`; after a
subsequent key-up for the same raw name, `pressed = false`, all three
modifier flags are false, and the timestamp is left untouched. -/
theorem keydown_keyup_pool_entry (s : InputState) (raw k : String)
    (ctrl shiftHeld altHeld : Bool) (now : Int)
    (h : navigatorKeyToThis raw = some k) :
    alookup (handleKeyDown s raw ctrl shiftHeld altHeld now).1.pool k =
      some { pressed := true, pressedTimestamp := now,
             control := ctrl, shift := shiftHeld, alt := altHeld } ∧
    alookup (handleKeyUp (handleKeyDown s raw ctrl shiftHeld altHeld now).1 raw).1.pool k =
      some { pressed := false, pressedTimestamp := now,
             control := false, shift := false, alt := false } := by
  constructor
  · simp [handleKeyDown, h, alookup_poolInsert_self]
  · simp [handleKeyDown, handleKeyUp, h, alookup_poolInsert_self]

theorem keydown_keyup_pool_entry_witness :
    alookup (handleKeyDown initState "ArrowLeft" false false false 100).1.pool "leftArrow" =
      some { pressed := true, pressedTimestamp := 100,
             control := false, shift := false, alt := false } ∧
    alookup (handleKeyUp (handleKeyDown initState "ArrowLeft" false false false 100).1
        "ArrowLeft").1.pool "leftArrow" =
      some { pressed := false, pressedTimestamp := 100,
             control := false, shift := false, alt := false } :=
  keydown_keyup_pool_entry initState "ArrowLeft" "leftArrow" false false false 100 (by decide)
